import Mathlib

/-!
Shallow embedding of the OpenNANORGS assembler backend: the instruction-set
tables of `src/tokenizer.rs` and the two-pass encoder `Compiler::compile` /
`Compiler::get_modes` of `src/compiler.rs`.  Machine words are Rust `u16`
values, modelled as `Nat` with explicit reduction modulo 65536 at the
operations where the source wraps (`wrapping_sub`); panics in the source
(`unwrap` on a missing symbol, the two addressing panics, and the
out-of-bounds write for an oversized program) are modelled as `Except`
errors, so a failed compilation returns no memory image.  The running
`instruction_pointer` is `u16` in the source but modelled as an unbounded
`Nat`: every stream that fits the 3600-word image keeps it far below the
wrap, and the wrapping subtraction reduces it modulo 65536 anyway.
-/

/-- The 38 instruction kinds of `InstructionType` in `src/tokenizer.rs`,
declared with discriminants 0 through 37. -/
inductive InstructionType where
  | NOP | MOV | PUSH | POP | CALL | RET | JMP | JL | JLE | JG
  | JGE | JE | JNE | JS | JNS | ADD | SUB | MULT | DIV | MOD
  | AND | OR | XOR | CMP | TEST | GETXY | ENERGY | TRAVEL | SHL | SHR
  | SENSE | EAT | RAND | RELEASE | CHARGE | POKE | PEEK | CKSUM
  deriving DecidableEq

/-- Numeric code of each opcode: the `repr(u16)` discriminant assigned in
`src/tokenizer.rs` (`NOP = 0` … `CKSUM = 37`), read off by the source's
`instruction_type as u16` cast. -/
def InstructionType.code : InstructionType → Nat
  | .NOP => 0 | .MOV => 1 | .PUSH => 2 | .POP => 3 | .CALL => 4
  | .RET => 5 | .JMP => 6 | .JL => 7 | .JLE => 8 | .JG => 9
  | .JGE => 10 | .JE => 11 | .JNE => 12 | .JS => 13 | .JNS => 14
  | .ADD => 15 | .SUB => 16 | .MULT => 17 | .DIV => 18 | .MOD => 19
  | .AND => 20 | .OR => 21 | .XOR => 22 | .CMP => 23 | .TEST => 24
  | .GETXY => 25 | .ENERGY => 26 | .TRAVEL => 27 | .SHL => 28 | .SHR => 29
  | .SENSE => 30 | .EAT => 31 | .RAND => 32 | .RELEASE => 33 | .CHARGE => 34
  | .POKE => 35 | .PEEK => 36 | .CKSUM => 37

/-- Transcription of `InstructionType::get_operand_amount` from
`src/tokenizer.rs`. -/
def InstructionType.get_operand_amount : InstructionType → Nat
  | .NOP | .RET | .EAT => 0
  | .PUSH | .POP | .CALL | .JMP | .JL | .JLE | .JG | .JGE | .JE | .JNE
  | .JS | .JNS | .ENERGY | .TRAVEL | .RELEASE | .SENSE => 1
  | .MOV | .ADD | .SUB | .MULT | .DIV | .MOD | .AND | .OR | .XOR | .CMP
  | .TEST | .GETXY | .SHL | .SHR | .RAND | .CHARGE | .POKE | .PEEK | .CKSUM => 2

/-- Transcription of `InstructionType::is_positional` from `src/tokenizer.rs`. -/
def InstructionType.is_positional : InstructionType → Bool
  | .CALL | .JMP | .JL | .JLE | .JG | .JGE | .JE | .JNE | .JS | .JNS => true
  | _ => false

/-- The sign of an indexed operand, `PlusMinus` from the parser module. -/
inductive PlusMinus where
  | Plus
  | Minus
  deriving DecidableEq

/-- A literal word or a symbolic label, `Value` from the parser module. -/
inductive Value where
  | Number (n : Nat)
  | Label (l : String)
  deriving DecidableEq

/-- Operand shapes, `Operand` from the parser module, exactly the shapes
`Compiler::compile` matches on. -/
inductive Operand where
  | None
  | Direct (v : Value)
  | ImmediateValue (v : Value)
  | Register (r : Nat)
  | RegisterIndexedDirect (base : Operand) (operator : PlusMinus) (offset : Operand)
  deriving DecidableEq

/-- An instruction record: opcode plus two operand slots. -/
structure Instruction where
  instruction_type : InstructionType
  operand1 : Operand
  operand2 : Operand
  deriving DecidableEq

/-- The records of the normalized instruction stream (`ParserToken`).
`Instruction`, `Data`, `EOF` and `Invalid` are referenced by
`src/compiler.rs`; the label-definition and metadata records (consumed by
the symbol-table pass and ignored by the encoder's catch-all match arm)
are named after the spec's section 6. -/
inductive ParserToken where
  | Instruction (instruction : Instruction)
  | Data (values : List Value)
  | LabelDefinition (name : String)
  | Metadata (fields : List String)
  | EOF
  | Invalid
  deriving DecidableEq

/-- Fatal assembly errors.  The source panics instead of returning a
result: `unwrap` on a missing symbol-table entry is `UnresolvedSymbol`,
the two explicit addressing panics carry their source message, and an
out-of-bounds write past the 3600-word image is `ProgramTooLarge`. -/
inductive CompileError where
  | UnresolvedSymbol (label : String)
  | InvalidAddressing (msg : String)
  | ProgramTooLarge
  deriving DecidableEq

/-- Case folding applied to label names before symbol-table access (Rust
`to_lowercase`), modelled character-wise; source labels are ASCII
identifiers produced by `read_ident` in `src/tokenizer.rs`. -/
def toLowerStr (s : String) : String := ⟨s.data.map Char.toLower⟩

/-- Symbol-table lookup: `self.symbol_table.get(&label.to_lowercase())`,
with the `unwrap` panic turned into an `UnresolvedSymbol` error. -/
def resolve (table : List (String × Nat)) (l : String) : Except CompileError Nat :=
  match List.lookup (toLowerStr l) table with
  | some v => Except.ok v
  | none => Except.error (CompileError.UnresolvedSymbol l)

/-- Wrapping 16-bit subtraction: `a.wrapping_sub(b)` on `u16` values,
written on `Nat` (the reduction of `a` makes the function total; stored
words are below 65536). -/
def wsub (a b : Nat) : Nat := (a % 65536 + (65536 - b % 65536)) % 65536

/-- The base half of the `RegisterIndexedDirect` match in
`Compiler::compile` (first inner `match base.as_ref()`), producing the
`(value, offset)` pair from their `(0, 0)` initialisation. -/
def indexedBase (table : List (String × Nat)) : Operand → Except CompileError (Nat × Nat)
  | .ImmediateValue v =>
    match v with
    | .Label l =>
      match resolve table l with
      | .error e => .error e
      | .ok a => .ok (0, a)
    | _ => .ok (0, 0)
  | .Register r => .ok (r <<< 12, 0)
  | _ => .ok (0, 0)

/-- The offset half of the `RegisterIndexedDirect` match in
`Compiler::compile` (second inner `match offset.as_ref()`), updating the
`(value, offset)` pair produced by the base match. -/
def indexedOffset (base : Operand) (vo : Nat × Nat) : Operand → Except CompileError (Nat × Nat)
  | .ImmediateValue v =>
    match v with
    | .Number k => .ok (vo.1, k)
    | .Label _ => .error (.InvalidAddressing "Label cannot be used as offset")
  | .Register r =>
    match base with
    | .Register _ => .error (.InvalidAddressing "Register cannot be used as offset")
    | .ImmediateValue v =>
      match v with
      | .Label _ => .ok (r <<< 12, vo.2)
      | _ => .ok vo
    | _ => .ok vo
  | _ => .ok vo

/-- The sign match closing the `RegisterIndexedDirect` arm: a `Minus`
operator negates a nonzero offset by `0u16.wrapping_sub` and sets the
operand's carry flag; the carry flag was initialised to `false`. -/
def applySign (operator : PlusMinus) (vo : Nat × Nat) : Nat × Nat × Bool :=
  match operator with
  | .Minus => if vo.2 > 0 then (vo.1, wsub 0 vo.2, true) else (vo.1, vo.2, false)
  | .Plus => (vo.1, vo.2, false)

/-- Per-operand encoding: the big `match op1` (identically `match op2`)
arm of `Compiler::compile`, yielding the `(value, offset, carry)` triple
the source accumulates in its three mutable locals. -/
def encodeOperand (table : List (String × Nat)) (positional : Bool) (ip : Nat) :
    Operand → Except CompileError (Nat × Nat × Bool)
  | .None => .ok (0, 0, false)
  | .Direct v =>
    match v with
    | .Number n => .ok (n, 0, false)
    | .Label l =>
      match resolve table l with
      | .error e => .error e
      | .ok a => .ok (a, 0, false)
  | .ImmediateValue v =>
    match v with
    | .Number n => .ok (if positional then wsub n ip else n, 0, false)
    | .Label l =>
      match resolve table l with
      | .error e => .error e
      | .ok a => .ok (if positional then wsub a ip else a, 0, false)
  | .Register r => .ok (r, 0, false)
  | .RegisterIndexedDirect base operator offset =>
    match indexedBase table base with
    | .error e => .error e
    | .ok vo =>
      match indexedOffset base vo offset with
      | .error e => .error e
      | .ok vo2 => .ok (applySign operator vo2)

/-- Modelled from the spec: the 2-bit addressing-mode code of an operand
shape.  The source computes it with `u16::from(instruction.operand1)`
whose `From` impl lives in the parser module, absent from `src/`; the
spec's section 9 gives the assignment absent=0, direct=1, immediate=2,
register-or-indexed=3. -/
def modeCode : Operand → Nat
  | .None => 0
  | .Direct _ => 1
  | .ImmediateValue _ => 2
  | .Register _ => 3
  | .RegisterIndexedDirect _ _ _ => 3

/-- Transcription of `Compiler::get_modes`: pack both operands' mode codes
and carry flags into the opcode word's high bits. -/
def get_modes (instruction : Instruction) (op1_carry op2_carry : Bool) : Nat :=
  let value := (modeCode instruction.operand1 <<< 2) ||| modeCode instruction.operand2
  let value := value <<< 12
  let value := if op1_carry then value ||| 0x800 else value
  if op2_carry then value ||| 0x400 else value

/-- Encoding of one instruction record at (aligned) address `ip`: operand1
then operand2 are encoded, and the three words pushed by the source are
the opcode word and the two packed operand words. -/
def encodeInstruction (table : List (String × Nat)) (ip : Nat) (instruction : Instruction) :
    Except CompileError (List Nat) :=
  match encodeOperand table instruction.instruction_type.is_positional ip instruction.operand1 with
  | .error e => .error e
  | .ok o1 =>
    match encodeOperand table instruction.instruction_type.is_positional ip instruction.operand2 with
    | .error e => .error e
    | .ok o2 =>
      .ok [instruction.instruction_type.code ||| get_modes instruction o1.2.2 o2.2.2,
           o1.1 ||| (o1.2.1 &&& 0xFFF),
           o2.1 ||| (o2.2.1 &&& 0xFFF)]

/-- The zero words pushed by the alignment loop
`while (instruction_pointer % 3) != 0 { bytecode.push(0); ... }`:
`(3 - ip % 3) % 3` of them (0, 2, 1 words for `ip % 3` = 0, 1, 2). -/
def padWords (ip : Nat) : List Nat := List.replicate ((3 - ip % 3) % 3) 0

/-- Resolution of a single data value: a `Number` verbatim, a `Label`
through the symbol table (the `match value` inside the data-record push of
`Compiler::compile`). -/
def resolveValue (table : List (String × Nat)) : Value → Except CompileError Nat
  | .Number n => .ok n
  | .Label l => resolve table l

/-- Encoding of a data record: one word per value, resolved in order
(`unwrap` modelled as an error). -/
def compileData (table : List (String × Nat)) : List Value → Except CompileError (List Nat)
  | [] => .ok []
  | v :: rest =>
    match resolveValue table v with
    | .error e => .error e
    | .ok w =>
      match compileData table rest with
      | .error e => .error e
      | .ok ws => .ok (w :: ws)

/-- The main loop of `Compiler::compile` over the token stream, carrying
the running `instruction_pointer` and returning the emitted bytecode
together with the final pointer value.  Instruction records pad to a
multiple of 3 and emit three words; data records emit one word per value;
every other record is skipped by the source's catch-all arm. -/
def compileAux (table : List (String × Nat)) :
    List ParserToken → Nat → Except CompileError (List Nat × Nat)
  | [], ip => .ok ([], ip)
  | t :: rest, ip =>
    match t with
    | .Instruction instruction =>
      match encodeInstruction table (ip + (padWords ip).length) instruction with
      | .error e => .error e
      | .ok ws =>
        match compileAux table rest (ip + (padWords ip).length + 3) with
        | .error e => .error e
        | .ok r => .ok (padWords ip ++ ws ++ r.1, r.2)
    | .Data vs =>
      match compileData table vs with
      | .error e => .error e
      | .ok ws =>
        match compileAux table rest (ip + vs.length) with
        | .error e => .error e
        | .ok r => .ok (ws ++ r.1, r.2)
    | _ => compileAux table rest ip

/-- Whole compilation `Compiler::compile`: run the loop from pointer 0 and
write the bytecode into the 3600-word zero-initialised `output` image; a
bytecode longer than the image makes the indexed write panic
(`ProgramTooLarge`), so no image is produced. -/
def compile (table : List (String × Nat)) (tokens : List ParserToken) :
    Except CompileError (List Nat) :=
  match compileAux table tokens 0 with
  | .error e => .error e
  | .ok r =>
    if r.1.length > 3600 then .error .ProgramTooLarge
    else .ok (r.1 ++ List.replicate (3600 - r.1.length) 0)

/-- Modelled from the spec: the next-multiple-of-3 step of the Symbol
Table Builder's cursor walk (section 4.1), "advance `cursor` to the next
multiple of 3". -/
def align3spec (c : Nat) : Nat := if c % 3 = 0 then c else c + (3 - c % 3)

/-- Modelled from the spec: the Symbol Table Builder (its source,
`symbol_table.rs`, is not under `src/`).  A single forward cursor walk per
section 4.1: a label definition records the case-folded name at the
current cursor; an instruction aligns the cursor to the next multiple of 3
and then advances it by 3; a data record of `n` values advances it by `n`;
metadata and end records advance it by 0. -/
def buildSymbolTable : List ParserToken → Nat → List (String × Nat)
  | [], _ => []
  | t :: rest, c =>
    match t with
    | .LabelDefinition name => (toLowerStr name, c) :: buildSymbolTable rest c
    | .Instruction _ => buildSymbolTable rest (align3spec c + 3)
    | .Data vs => buildSymbolTable rest (c + vs.length)
    | _ => buildSymbolTable rest c

/-- The encoder's cursor walk, read off `compileAux`: the label addresses
the encoder's `instruction_pointer` reaches at each label-definition
marker, using exactly the pointer updates of `compileAux` (padding length
plus 3 for an instruction, value count for a data record, unchanged
otherwise). -/
def encoderLabelTrace : List ParserToken → Nat → List (String × Nat)
  | [], _ => []
  | t :: rest, ip =>
    match t with
    | .LabelDefinition name => (toLowerStr name, ip) :: encoderLabelTrace rest ip
    | .Instruction _ => encoderLabelTrace rest (ip + (padWords ip).length + 3)
    | .Data vs => encoderLabelTrace rest (ip + vs.length)
    | _ => encoderLabelTrace rest ip

/-- Final value of the Symbol Table Builder's cursor walk over a stream,
per the spec's section 4.1 rules (used to state that the encoder's final
`instruction_pointer` agrees with the builder's cursor). -/
def specCursorFinal : List ParserToken → Nat → Nat
  | [], c => c
  | t :: rest, c =>
    match t with
    | .Instruction _ => specCursorFinal rest (align3spec c + 3)
    | .Data vs => specCursorFinal rest (c + vs.length)
    | _ => specCursorFinal rest c

/-- Addresses at which instruction opcode words land, by the encoder's
cursor walk: each instruction's opcode word goes at the padded (aligned)
address, and occupies three words with its operands. -/
def opcodeAddrs : List ParserToken → Nat → List Nat
  | [], _ => []
  | t :: rest, ip =>
    match t with
    | .Instruction _ => (ip + (padWords ip).length) :: opcodeAddrs rest (ip + (padWords ip).length + 3)
    | .Data vs => opcodeAddrs rest (ip + vs.length)
    | _ => opcodeAddrs rest ip

/-- Positions in which the encoder calls `resolve` on an operand's label:
a `Direct` or `Immediate` value, or the base of an `IndexedDirect`. -/
def opResolvesLabel (op : Operand) (l : String) : Prop :=
  op = .Direct (.Label l) ∨ op = .ImmediateValue (.Label l) ∨
  ∃ sign offset, op = .RegisterIndexedDirect (.ImmediateValue (.Label l)) sign offset

/-- The operand references, in a resolve position, a label absent from the
symbol table (after case folding). -/
def opUnresolved (table : List (String × Nat)) (op : Operand) : Prop :=
  ∃ l, opResolvesLabel op l ∧ List.lookup (toLowerStr l) table = none

/-- The data record contains a label value absent from the symbol table. -/
def dataUnresolved (table : List (String × Nat)) (vs : List Value) : Prop :=
  ∃ l, Value.Label l ∈ vs ∧ List.lookup (toLowerStr l) table = none

/-- The stream references, in a resolve position of an operand or in a
data value, a label absent from the symbol table. -/
def hasUnresolvedRef (table : List (String × Nat)) (tokens : List ParserToken) : Prop :=
  ∃ t ∈ tokens,
    (∃ instruction, t = ParserToken.Instruction instruction ∧
      (opUnresolved table instruction.operand1 ∨ opUnresolved table instruction.operand2)) ∨
    (∃ vs, t = ParserToken.Data vs ∧ dataUnresolved table vs)

/-- The operand avoids the two addressing combinations the source rejects
with a panic: a label in the offset position of an `IndexedDirect`, and a
register offset together with a register base. -/
def goodShape (op : Operand) : Prop :=
  ∀ base sign offset, op = .RegisterIndexedDirect base sign offset →
    (∀ l, offset ≠ .ImmediateValue (.Label l)) ∧
    (∀ r r2, ¬(base = .Register r ∧ offset = .Register r2))

/-- Every instruction operand of the stream has a good shape. -/
def noInvalidShapes (tokens : List ParserToken) : Prop :=
  ∀ instruction, ParserToken.Instruction instruction ∈ tokens →
    goodShape instruction.operand1 ∧ goodShape instruction.operand2

/-- The two operand shapes with no valid encoding: a label in the offset
position, or a register offset with a register base. -/
def invalidShape (op : Operand) : Prop :=
  (∃ base sign l, op = .RegisterIndexedDirect base sign (.ImmediateValue (.Label l))) ∨
  (∃ r sign r2, op = .RegisterIndexedDirect (.Register r) sign (.Register r2))

/-- The record fails to encode at every instruction pointer. -/
def tokenFails (table : List (String × Nat)) (t : ParserToken) : Prop :=
  (∃ instruction, t = ParserToken.Instruction instruction ∧
    ((∀ positional ip, ∃ e,
        encodeOperand table positional ip instruction.operand1 = .error e) ∨
     (∀ positional ip, ∃ e,
        encodeOperand table positional ip instruction.operand2 = .error e))) ∨
  (∃ vs, t = ParserToken.Data vs ∧ ∃ e, compileData table vs = .error e)


/-! Helper lemmas about the encoder's building blocks. -/

theorem padWords_length (ip : Nat) : (padWords ip).length = (3 - ip % 3) % 3 := by
  simp [padWords]

theorem align3spec_eq_pad (c : Nat) : align3spec c = c + (padWords c).length := by
  simp only [align3spec, padWords_length]
  split <;> omega

theorem pad_aligned (ip : Nat) : (ip + (padWords ip).length) % 3 = 0 := by
  simp only [padWords_length]
  omega

theorem encodeInstruction_length {table : List (String × Nat)} {ip : Nat}
    {instruction : Instruction} {ws : List Nat}
    (h : encodeInstruction table ip instruction = .ok ws) : ws.length = 3 := by
  unfold encodeInstruction at h
  split at h
  · exact absurd h (by simp)
  · split at h
    · exact absurd h (by simp)
    · simp only [Except.ok.injEq] at h
      subst h
      rfl

theorem compileData_length {table : List (String × Nat)} {vs : List Value} {ws : List Nat}
    (h : compileData table vs = .ok ws) : ws.length = vs.length := by
  induction vs generalizing ws with
  | nil =>
    simp only [compileData, Except.ok.injEq] at h
    subst h
    rfl
  | cons v rest ih =>
    unfold compileData at h
    split at h
    · exact absurd h (by simp)
    · split at h
      · exact absurd h (by simp)
      · rename_i ws' hws'
        simp only [Except.ok.injEq] at h
        subst h
        simp [ih hws']

theorem compileAux_length {table : List (String × Nat)} {tokens : List ParserToken}
    {ip : Nat} {bc : List Nat} {fip : Nat}
    (h : compileAux table tokens ip = .ok (bc, fip)) : ip + bc.length = fip := by
  induction tokens generalizing ip bc fip with
  | nil =>
    simp only [compileAux, Except.ok.injEq, Prod.mk.injEq] at h
    obtain ⟨h1, h2⟩ := h
    subst h1
    subst h2
    simp
  | cons t rest ih =>
    unfold compileAux at h
    match t with
    | ParserToken.Instruction instruction =>
      simp only at h
      split at h
      · exact absurd h (by simp)
      · rename_i ws hws
        split at h
        · exact absurd h (by simp)
        · rename_i r hr
          simp only [Except.ok.injEq, Prod.mk.injEq] at h
          obtain ⟨hbc, hfip⟩ := h
          subst hbc hfip
          have h3 := encodeInstruction_length hws
          have := ih hr
          simp only [List.length_append, h3]
          omega
    | ParserToken.Data vs =>
      simp only at h
      split at h
      · exact absurd h (by simp)
      · rename_i ws hws
        split at h
        · exact absurd h (by simp)
        · rename_i r hr
          simp only [Except.ok.injEq, Prod.mk.injEq] at h
          obtain ⟨hbc, hfip⟩ := h
          subst hbc hfip
          have := compileData_length hws
          have := ih hr
          simp only [List.length_append]
          omega
    | ParserToken.LabelDefinition name => exact ih h
    | ParserToken.Metadata fields => exact ih h
    | ParserToken.EOF => exact ih h
    | ParserToken.Invalid => exact ih h

theorem compileAux_cons_instr {table : List (String × Nat)} {instruction : Instruction}
    {rest : List ParserToken} {ip : Nat} {bc : List Nat} {fip : Nat}
    (h : compileAux table (ParserToken.Instruction instruction :: rest) ip = .ok (bc, fip)) :
    ∃ ws tail,
      encodeInstruction table (ip + (padWords ip).length) instruction = .ok ws ∧
      compileAux table rest (ip + (padWords ip).length + 3) = .ok (tail, fip) ∧
      bc = padWords ip ++ ws ++ tail := by
  unfold compileAux at h
  simp only at h
  split at h
  · exact absurd h (by simp)
  · rename_i ws hws
    split at h
    · exact absurd h (by simp)
    · rename_i r hr
      simp only [Except.ok.injEq, Prod.mk.injEq] at h
      obtain ⟨h1, h2⟩ := h
      subst h1
      subst h2
      exact ⟨ws, r.1, hws, by rw [hr], rfl⟩

theorem compileAux_cons_data {table : List (String × Nat)} {vs : List Value}
    {rest : List ParserToken} {ip : Nat} {bc : List Nat} {fip : Nat}
    (h : compileAux table (ParserToken.Data vs :: rest) ip = .ok (bc, fip)) :
    ∃ ws tail,
      compileData table vs = .ok ws ∧
      compileAux table rest (ip + vs.length) = .ok (tail, fip) ∧
      bc = ws ++ tail := by
  unfold compileAux at h
  simp only at h
  split at h
  · exact absurd h (by simp)
  · rename_i ws hws
    split at h
    · exact absurd h (by simp)
    · rename_i r hr
      simp only [Except.ok.injEq, Prod.mk.injEq] at h
      obtain ⟨h1, h2⟩ := h
      subst h1
      subst h2
      exact ⟨ws, r.1, hws, by rw [hr], rfl⟩

/-- The list of all 38 opcodes in declaration order. -/
def allInstructionTypes : List InstructionType :=
  [.NOP, .MOV, .PUSH, .POP, .CALL, .RET, .JMP, .JL, .JLE, .JG, .JGE, .JE, .JNE, .JS, .JNS,
   .ADD, .SUB, .MULT, .DIV, .MOD, .AND, .OR, .XOR, .CMP, .TEST, .GETXY, .ENERGY, .TRAVEL,
   .SHL, .SHR, .SENSE, .EAT, .RAND, .RELEASE, .CHARGE, .POKE, .PEEK, .CKSUM]

/-- C9: the opcode set consists of exactly 38 instruction kinds with numeric
codes 0 through 37, each with declared operand arity 0, 1 or 2, and the
positional flag holds exactly for CALL, JMP, JL, JLE, JG, JGE, JE, JNE,
JS and JNS — in particular it is false for RET. -/
theorem c9_opcode_set :
    allInstructionTypes.length = 38 ∧
    (∀ t : InstructionType, t ∈ allInstructionTypes) ∧
    allInstructionTypes.map InstructionType.code = List.range 38 ∧
    (∀ t : InstructionType,
      t.get_operand_amount = 0 ∨ t.get_operand_amount = 1 ∨ t.get_operand_amount = 2) ∧
    (∀ t : InstructionType, t.is_positional = true ↔
      (t = .CALL ∨ t = .JMP ∨ t = .JL ∨ t = .JLE ∨ t = .JG ∨
       t = .JGE ∨ t = .JE ∨ t = .JNE ∨ t = .JS ∨ t = .JNS)) ∧
    InstructionType.is_positional .RET = false := by
  refine ⟨rfl, ?_, by decide, ?_, ?_, rfl⟩
  · intro t
    cases t <;> decide
  · intro t
    cases t <;> decide
  · intro t
    cases t <;> decide

/-- C2: every instruction record's opcode word is emitted at an address
divisible by 3.  Conjuncts: (1) every opcode address of the encoder's
cursor walk is a multiple of 3; (2) an instruction record first emits
`(3 - ip % 3) % 3` zero words, landing the opcode word at the aligned
address `align3spec ip` (a multiple of 3); (3) a data record emits exactly
one word per value with no padding; (4) emitted words and the cursor
advance in lockstep, so list positions in the bytecode are addresses. -/
theorem c2_alignment :
    (∀ tokens ip a, a ∈ opcodeAddrs tokens ip → a % 3 = 0) ∧
    (∀ table instruction rest ip bc fip,
      compileAux table (ParserToken.Instruction instruction :: rest) ip = .ok (bc, fip) →
      ∃ ws tail,
        encodeInstruction table (align3spec ip) instruction = .ok ws ∧
        align3spec ip % 3 = 0 ∧
        bc = List.replicate ((3 - ip % 3) % 3) 0 ++ ws ++ tail ∧
        compileAux table rest (align3spec ip + 3) = .ok (tail, fip)) ∧
    (∀ table vs rest ip bc fip,
      compileAux table (ParserToken.Data vs :: rest) ip = .ok (bc, fip) →
      ∃ ws tail,
        compileData table vs = .ok ws ∧ ws.length = vs.length ∧
        bc = ws ++ tail ∧
        compileAux table rest (ip + vs.length) = .ok (tail, fip)) ∧
    (∀ table tokens ip bc fip,
      compileAux table tokens ip = .ok (bc, fip) → ip + bc.length = fip) := by
  refine ⟨?_, ?_, ?_, ?_⟩
  · intro tokens
    induction tokens with
    | nil => intro ip a ha; simp [opcodeAddrs] at ha
    | cons t rest ih =>
      intro ip a ha
      match t with
      | ParserToken.Instruction instruction =>
        simp only [opcodeAddrs, List.mem_cons] at ha
        rcases ha with h | h
        · subst h; exact pad_aligned ip
        · exact ih _ _ h
      | ParserToken.Data vs => exact ih _ _ (by simpa [opcodeAddrs] using ha)
      | ParserToken.LabelDefinition name => exact ih _ _ (by simpa [opcodeAddrs] using ha)
      | ParserToken.Metadata fields => exact ih _ _ (by simpa [opcodeAddrs] using ha)
      | ParserToken.EOF => exact ih _ _ (by simpa [opcodeAddrs] using ha)
      | ParserToken.Invalid => exact ih _ _ (by simpa [opcodeAddrs] using ha)
  · intro table instruction rest ip bc fip h
    obtain ⟨ws, tail, hws, hrest, hbc⟩ := compileAux_cons_instr h
    refine ⟨ws, tail, ?_, ?_, ?_, ?_⟩
    · rw [align3spec_eq_pad]; exact hws
    · rw [align3spec_eq_pad]; exact pad_aligned ip
    · exact hbc
    · rw [align3spec_eq_pad]; exact hrest
  · intro table vs rest ip bc fip h
    obtain ⟨ws, tail, hws, hrest, hbc⟩ := compileAux_cons_data h
    exact ⟨ws, tail, hws, compileData_length hws, hbc, hrest⟩
  · intro table tokens ip bc fip h
    exact compileAux_length h

/-- Witness for C2 at the spec's padding scenario: one data word followed
by a NOP lands the NOP opcode at address 3, after two zero words. -/
theorem c2_alignment_witness :
    align3spec 1 % 3 = 0 ∧ (1 : Nat) + [0, 0, 0, 0, 0].length = 6 := by
  constructor
  · obtain ⟨ws, tail, h1, h2, h3, h4⟩ :=
      c2_alignment.2.1 [] ⟨.NOP, .None, .None⟩ [] 1 [0, 0, 0, 0, 0] 6 (by rfl)
    exact h2
  · exact c2_alignment.2.2.2 [] [ParserToken.Instruction ⟨.NOP, .None, .None⟩] 1
      [0, 0, 0, 0, 0] 6 (by rfl)

/-- C3: the two passes agree.  Conjunct (1): the Symbol Table Builder's
walk (modelled from the spec's section 4.1) records, for every label of
any stream, exactly the cursor value of the encoder's walk at that label's
definition marker; conjunct (2): the encoder's actual final
`instruction_pointer` in `compileAux` equals the builder's final cursor on
every successful run, for every stream and start address. -/
theorem c3_pass_agreement :
    (∀ tokens c, buildSymbolTable tokens c = encoderLabelTrace tokens c) ∧
    (∀ table tokens ip bc fip,
      compileAux table tokens ip = .ok (bc, fip) → fip = specCursorFinal tokens ip) := by
  constructor
  · intro tokens
    induction tokens with
    | nil => intro c; rfl
    | cons t rest ih =>
      intro c
      match t with
      | ParserToken.Instruction instruction =>
        simp only [buildSymbolTable, encoderLabelTrace]
        rw [align3spec_eq_pad]
        exact ih _
      | ParserToken.Data vs =>
        simp only [buildSymbolTable, encoderLabelTrace]
        exact ih _
      | ParserToken.LabelDefinition name =>
        simp only [buildSymbolTable, encoderLabelTrace]
        rw [ih]
      | ParserToken.Metadata fields => exact ih _
      | ParserToken.EOF => exact ih _
      | ParserToken.Invalid => exact ih _
  · intro table tokens
    induction tokens with
    | nil =>
      intro ip bc fip h
      simp only [compileAux, Except.ok.injEq, Prod.mk.injEq] at h
      simp [specCursorFinal, h.2.symm]
    | cons t rest ih =>
      intro ip bc fip h
      match t with
      | ParserToken.Instruction instruction =>
        obtain ⟨ws, tail, hws, hrest, hbc⟩ := compileAux_cons_instr h
        simp only [specCursorFinal]
        rw [align3spec_eq_pad]
        exact ih _ _ _ hrest
      | ParserToken.Data vs =>
        obtain ⟨ws, tail, hws, hrest, hbc⟩ := compileAux_cons_data h
        exact ih _ _ _ hrest
      | ParserToken.LabelDefinition name => exact ih _ _ _ h
      | ParserToken.Metadata fields => exact ih _ _ _ h
      | ParserToken.EOF => exact ih _ _ _ h
      | ParserToken.Invalid => exact ih _ _ _ h

/-- Witness for C3: on the stream `data [7]; L: ; NOP` the builder records
`("l", 1)`, the encoder's trace reaches the same pair, and a successful
run of `compileAux` ends with pointer 6 as the builder's walk prescribes. -/
theorem c3_pass_agreement_witness :
    buildSymbolTable
        [ParserToken.Data [.Number 7], ParserToken.LabelDefinition "L",
         ParserToken.Instruction ⟨.NOP, .None, .None⟩] 0 =
      encoderLabelTrace
        [ParserToken.Data [.Number 7], ParserToken.LabelDefinition "L",
         ParserToken.Instruction ⟨.NOP, .None, .None⟩] 0 ∧
    (6 : Nat) = specCursorFinal
        [ParserToken.Data [.Number 7], ParserToken.LabelDefinition "L",
         ParserToken.Instruction ⟨.NOP, .None, .None⟩] 0 := by
  constructor
  · exact c3_pass_agreement.1 _ 0
  · exact c3_pass_agreement.2 [] _ 0 [7, 0, 0, 0, 0, 0] 6 (by rfl)

theorem encodeInstruction_ok_shape {table : List (String × Nat)} {ip : Nat}
    {instruction : Instruction} {ws : List Nat}
    (h : encodeInstruction table ip instruction = .ok ws) :
    ∃ o1 o2,
      encodeOperand table instruction.instruction_type.is_positional ip
        instruction.operand1 = .ok o1 ∧
      encodeOperand table instruction.instruction_type.is_positional ip
        instruction.operand2 = .ok o2 ∧
      ws = [instruction.instruction_type.code ||| get_modes instruction o1.2.2 o2.2.2,
            o1.1 ||| (o1.2.1 &&& 0xFFF),
            o2.1 ||| (o2.2.1 &&& 0xFFF)] := by
  unfold encodeInstruction at h
  split at h
  · exact absurd h (by simp)
  · rename_i o1 h1
    split at h
    · exact absurd h (by simp)
    · rename_i o2 h2
      simp only [Except.ok.injEq] at h
      exact ⟨o1, o2, h1, h2, h.symm⟩

theorem modeCode_lt (op : Operand) : modeCode op < 4 := by
  cases op <;> simp [modeCode]

theorem get_modes_eq (instruction : Instruction) (c1 c2 : Bool) :
    get_modes instruction c1 c2 =
      (modeCode instruction.operand1 <<< 14) ||| (modeCode instruction.operand2 <<< 12) |||
        (cond c1 0x800 0) ||| (cond c2 0x400 0) := by
  have key : ∀ m1, m1 < 4 → ∀ m2, m2 < 4 →
      ((m1 <<< 2) ||| m2) <<< 12 = (m1 <<< 14) ||| (m2 <<< 12) := by decide
  unfold get_modes
  dsimp only
  rw [key _ (modeCode_lt instruction.operand1) _ (modeCode_lt instruction.operand2)]
  cases c1 <;> cases c2 <;> simp [Nat.or_zero]

/-- C4: every instruction record is encoded as exactly three consecutive
words: an opcode word equal to the opcode's numeric code OR a mode field
with operand1's 2-bit addressing-mode code in bits 15-14, operand2's in
bits 13-12, operand1's carry flag as 0x800 and operand2's as 0x400,
followed by one word per operand equal to `value OR (offset AND 0xFFF)`.
The mode codes themselves are the spec-modelled `modeCode` (their `From`
impl is in the parser module, not under `src/`). -/
theorem c4_instruction_words :
    ∀ (table : List (String × Nat)) (ip : Nat) (instruction : Instruction)
      (v1 o1 : Nat) (c1 : Bool) (v2 o2 : Nat) (c2 : Bool),
      encodeOperand table instruction.instruction_type.is_positional ip
        instruction.operand1 = .ok (v1, o1, c1) →
      encodeOperand table instruction.instruction_type.is_positional ip
        instruction.operand2 = .ok (v2, o2, c2) →
      encodeInstruction table ip instruction =
        .ok [instruction.instruction_type.code |||
               ((modeCode instruction.operand1 <<< 14) |||
                (modeCode instruction.operand2 <<< 12) |||
                (cond c1 0x800 0) ||| (cond c2 0x400 0)),
             v1 ||| (o1 &&& 0xFFF),
             v2 ||| (o2 &&& 0xFFF)] := by
  intro table ip instruction v1 o1 c1 v2 o2 c2 h1 h2
  unfold encodeInstruction
  rw [h1, h2, ← get_modes_eq]

/-- Witness for C4 at the spec's end-to-end scenario `MOV r0, 5`:
mode codes (3, 2), no carries, opcode word `1 OR 0xE000`. -/
theorem c4_instruction_words_witness :
    encodeInstruction [] 0 ⟨.MOV, .Register 0, .ImmediateValue (.Number 5)⟩ =
      .ok [InstructionType.code .MOV |||
             ((modeCode (.Register 0) <<< 14) ||| (modeCode (.ImmediateValue (.Number 5)) <<< 12) |||
              (cond false 0x800 0) ||| (cond false 0x400 0)),
           0 ||| (0 &&& 0xFFF),
           5 ||| (0 &&& 0xFFF)] :=
  c4_instruction_words [] 0 ⟨.MOV, .Register 0, .ImmediateValue (.Number 5)⟩
    0 0 false 5 0 false (by rfl) (by rfl)

/-- C1: relative addressing round-trip.  For a positional opcode, an
`Immediate(Number n)` operand encoded while the opcode word sits at
address `A` yields value `wsub n A`, which equals `(n - A) mod 65536` (as
integers) and satisfies `(v + A) mod 65536 = n`; a non-positional opcode
leaves `n` unchanged.  The final conjunct ties this to the emitted operand
words in either operand position of `encodeInstruction`. -/
theorem c1_relative_addressing :
    ∀ (table : List (String × Nat)) (A n : Nat), n < 65536 →
      (encodeOperand table true A (.ImmediateValue (.Number n)) = .ok (wsub n A, 0, false)) ∧
      ((wsub n A + A) % 65536 = n) ∧
      (((wsub n A : Nat) : Int) = ((n : Int) - (A : Int)) % 65536) ∧
      (encodeOperand table false A (.ImmediateValue (.Number n)) = .ok (n, 0, false)) ∧
      (∀ (instruction : Instruction) (ws : List Nat),
        encodeInstruction table A instruction = .ok ws →
        (instruction.operand1 = .ImmediateValue (.Number n) →
          ws.getD 1 0 = if instruction.instruction_type.is_positional then wsub n A else n) ∧
        (instruction.operand2 = .ImmediateValue (.Number n) →
          ws.getD 2 0 = if instruction.instruction_type.is_positional then wsub n A else n)) := by
  intro table A n hn
  refine ⟨rfl, ?_, ?_, rfl, ?_⟩
  · unfold wsub; omega
  · unfold wsub; omega
  · intro instruction ws h
    obtain ⟨o1, o2, h1, h2, hws⟩ := encodeInstruction_ok_shape h
    constructor
    · intro hop
      rw [hop] at h1
      have e1 : encodeOperand table instruction.instruction_type.is_positional A
          (.ImmediateValue (.Number n)) =
          .ok (if instruction.instruction_type.is_positional then wsub n A else n, 0, false) := rfl
      rw [e1] at h1
      simp only [Except.ok.injEq] at h1
      subst h1
      rw [hws]
      simp [List.getD]
    · intro hop
      rw [hop] at h2
      have e2 : encodeOperand table instruction.instruction_type.is_positional A
          (.ImmediateValue (.Number n)) =
          .ok (if instruction.instruction_type.is_positional then wsub n A else n, 0, false) := rfl
      rw [e2] at h2
      simp only [Except.ok.injEq] at h2
      subst h2
      rw [hws]
      simp [List.getD]

/-- Witness for C1: `JMP 9` encoded at address 3 emits operand value 6,
and `(6 + 3) mod 65536 = 9`; a non-positional `MOV` leaves 9 unchanged. -/
theorem c1_relative_addressing_witness :
    (9 : Nat) < 65536 ∧
    encodeOperand [] true 3 (.ImmediateValue (.Number 9)) = .ok (wsub 9 3, 0, false) ∧
    (wsub 9 3 + 3) % 65536 = 9 ∧
    encodeOperand [] false 3 (.ImmediateValue (.Number 9)) = .ok (9, 0, false) := by
  have h := c1_relative_addressing [] 3 9 (by decide)
  exact ⟨by decide, h.1, h.2.1, h.2.2.2.1⟩

theorem encodeOperand_indexed (table : List (String × Nat)) (positional : Bool) (ip : Nat)
    (base : Operand) (operator : PlusMinus) (offset : Operand) (vo vo2 : Nat × Nat)
    (hbase : indexedBase table base = .ok vo)
    (hoff : indexedOffset base vo offset = .ok vo2) :
    encodeOperand table positional ip (.RegisterIndexedDirect base operator offset) =
      .ok (applySign operator vo2) := by
  unfold encodeOperand
  dsimp only
  rw [hbase]
  dsimp only
  rw [hoff]

/-- C5: sign handling for `IndexedDirect`.  Given the computed pre-sign
`(value, offset)` pair, a `Minus` sign with nonzero offset yields the
16-bit wraparound negation `wsub 0 off` and sets the carry flag; a zero
offset, or a `Plus` sign, leaves the offset unchanged with carry false.
The arithmetic conjuncts identify `wsub 0 off` with `(0 - off) mod 65536`. -/
theorem c5_minus_offset :
    ∀ (table : List (String × Nat)) (positional : Bool) (ip : Nat)
      (base offset : Operand) (vo : Nat × Nat) (v off : Nat),
      indexedBase table base = .ok vo →
      indexedOffset base vo offset = .ok (v, off) →
      (off ≠ 0 →
        encodeOperand table positional ip (.RegisterIndexedDirect base .Minus offset) =
          .ok (v, wsub 0 off, true)) ∧
      (off = 0 →
        encodeOperand table positional ip (.RegisterIndexedDirect base .Minus offset) =
          .ok (v, 0, false)) ∧
      (encodeOperand table positional ip (.RegisterIndexedDirect base .Plus offset) =
        .ok (v, off, false)) ∧
      (off < 65536 → ((wsub 0 off : Nat) : Int) = ((0 : Int) - (off : Int)) % 65536) ∧
      (off < 65536 → (wsub 0 off + off) % 65536 = 0) := by
  intro table positional ip base offset vo v off hbase hoff
  refine ⟨?_, ?_, ?_, ?_, ?_⟩
  · intro hne
    rw [encodeOperand_indexed table positional ip base .Minus offset vo (v, off) hbase hoff]
    simp [applySign, Nat.pos_of_ne_zero hne]
  · intro hz
    subst hz
    rw [encodeOperand_indexed table positional ip base .Minus offset vo (v, 0) hbase hoff]
    simp [applySign]
  · rw [encodeOperand_indexed table positional ip base .Plus offset vo (v, off) hbase hoff]
    simp [applySign]
  · intro hlt
    unfold wsub
    omega
  · intro hlt
    unfold wsub
    omega

/-- Witness for C5 at the spec's examples: `[r2 - 5]` encodes offset
`wsub 0 5 = 65531` with carry set; `[r2 - 0]` keeps offset 0, carry unset. -/
theorem c5_minus_offset_witness :
    encodeOperand [] false 0
        (.RegisterIndexedDirect (.Register 2) .Minus (.ImmediateValue (.Number 5))) =
      .ok (8192, wsub 0 5, true) ∧
    encodeOperand [] false 0
        (.RegisterIndexedDirect (.Register 2) .Minus (.ImmediateValue (.Number 0))) =
      .ok (8192, 0, false) := by
  have h5 := c5_minus_offset [] false 0 (.Register 2) (.ImmediateValue (.Number 5))
    (8192, 0) 8192 5 (by rfl) (by rfl)
  have h0 := c5_minus_offset [] false 0 (.Register 2) (.ImmediateValue (.Number 0))
    (8192, 0) 8192 0 (by rfl) (by rfl)
  exact ⟨h5.1 (by decide), h0.2.1 rfl⟩

/-- C10: an `IndexedDirect` whose base is `Immediate(Label l)` and whose
offset is `Number k` still resolves `l` (an undefined `l` is a fatal
`UnresolvedSymbol`, also at the whole-instruction level), but the resolved
address is then overwritten by `k` in the offset field, the value field
stays 0, and (with the identity `Plus` sign) the emitted operand word is
`k AND 0xFFF`. -/
theorem c10_discarded_base_label :
    ∀ (table : List (String × Nat)) (positional : Bool) (ip : Nat)
      (l : String) (sign : PlusMinus) (k : Nat),
      (List.lookup (toLowerStr l) table = none →
        encodeOperand table positional ip
          (.RegisterIndexedDirect (.ImmediateValue (.Label l)) sign
            (.ImmediateValue (.Number k))) =
          .error (.UnresolvedSymbol l)) ∧
      (∀ (instruction : Instruction),
        List.lookup (toLowerStr l) table = none →
        instruction.operand1 =
          .RegisterIndexedDirect (.ImmediateValue (.Label l)) sign
            (.ImmediateValue (.Number k)) →
        encodeInstruction table ip instruction = .error (.UnresolvedSymbol l)) ∧
      (∀ a, List.lookup (toLowerStr l) table = some a →
        indexedBase table (.ImmediateValue (.Label l)) = .ok (0, a) ∧
        indexedOffset (.ImmediateValue (.Label l)) (0, a) (.ImmediateValue (.Number k)) =
          .ok (0, k) ∧
        encodeOperand table positional ip
          (.RegisterIndexedDirect (.ImmediateValue (.Label l)) .Plus
            (.ImmediateValue (.Number k))) =
          .ok (0, k, false)) ∧
      (∀ a, List.lookup (toLowerStr l) table = some a →
        ∀ (instruction : Instruction) (ws : List Nat),
          instruction.operand1 =
            .RegisterIndexedDirect (.ImmediateValue (.Label l)) .Plus
              (.ImmediateValue (.Number k)) →
          encodeInstruction table ip instruction = .ok ws →
          ws.getD 1 0 = k &&& 0xFFF) := by
  intro table positional ip l sign k
  have hres : ∀ a, List.lookup (toLowerStr l) table = some a → resolve table l = .ok a := by
    intro a ha
    unfold resolve
    rw [ha]
  have hresn : List.lookup (toLowerStr l) table = none →
      resolve table l = .error (.UnresolvedSymbol l) := by
    intro hn
    unfold resolve
    rw [hn]
  have hbasen : List.lookup (toLowerStr l) table = none →
      indexedBase table (.ImmediateValue (.Label l)) = .error (.UnresolvedSymbol l) := by
    intro hn
    unfold indexedBase
    dsimp only
    rw [hresn hn]
  have hopn : List.lookup (toLowerStr l) table = none →
      ∀ positional2 ip2,
      encodeOperand table positional2 ip2
        (.RegisterIndexedDirect (.ImmediateValue (.Label l)) sign
          (.ImmediateValue (.Number k))) = .error (.UnresolvedSymbol l) := by
    intro hn positional2 ip2
    unfold encodeOperand
    dsimp only
    rw [hbasen hn]
  refine ⟨fun hn => hopn hn positional ip, ?_, ?_, ?_⟩
  · intro instruction hn hop
    unfold encodeInstruction
    rw [hop, hopn hn]
  · intro a ha
    have hb : indexedBase table (.ImmediateValue (.Label l)) = .ok (0, a) := by
      unfold indexedBase
      dsimp only
      rw [hres a ha]
    refine ⟨hb, rfl, ?_⟩
    rw [encodeOperand_indexed table positional ip (.ImmediateValue (.Label l)) .Plus
      (.ImmediateValue (.Number k)) (0, a) (0, k) hb rfl]
    simp [applySign]
  · intro a ha instruction ws hop h
    obtain ⟨o1, o2, h1, h2, hws⟩ := encodeInstruction_ok_shape h
    rw [hop] at h1
    have hb : indexedBase table (.ImmediateValue (.Label l)) = .ok (0, a) := by
      unfold indexedBase
      dsimp only
      rw [hres a ha]
    rw [encodeOperand_indexed table instruction.instruction_type.is_positional ip
      (.ImmediateValue (.Label l)) .Plus (.ImmediateValue (.Number k)) (0, a) (0, k) hb rfl] at h1
    simp only [applySign, Except.ok.injEq] at h1
    subst h1
    rw [hws]
    simp [List.getD]

/-- Witness for C10: with `x` undefined the operand fails with
`UnresolvedSymbol`; with `x` at address 9 the operand `[x + 3]` encodes
value 0, offset 3, carry false. -/
theorem c10_discarded_base_label_witness :
    encodeOperand [] false 0
        (.RegisterIndexedDirect (.ImmediateValue (.Label "x")) .Plus
          (.ImmediateValue (.Number 3))) =
      .error (.UnresolvedSymbol "x") ∧
    encodeOperand [("x", 9)] false 0
        (.RegisterIndexedDirect (.ImmediateValue (.Label "x")) .Plus
          (.ImmediateValue (.Number 3))) =
      .ok (0, 3, false) := by
  constructor
  · exact (c10_discarded_base_label [] false 0 "x" .Plus 3).1 (by rfl)
  · exact ((c10_discarded_base_label [("x", 9)] false 0 "x" .Plus 3).2.2.1 9 (by rfl)).2.2

theorem replicate_getD_zero (n i : Nat) : (List.replicate n (0 : Nat)).getD i 0 = 0 := by
  induction n generalizing i with
  | zero => simp [List.getD]
  | succ m ih =>
    cases i with
    | zero => simp [List.replicate]
    | succ j => simp only [List.replicate, List.getD_cons_succ]; exact ih j

/-- C8: a stream whose emitted word count (padding included) exceeds the
image capacity of 3600 words fails with `ProgramTooLarge` and returns no
image; a stream that fits returns exactly 3600 words, the bytecode
followed by zeros at every address past the emitted program. -/
theorem c8_capacity :
    (∀ (table : List (String × Nat)) (tokens : List ParserToken) (bc : List Nat) (fip : Nat),
      compileAux table tokens 0 = .ok (bc, fip) →
      (3600 < bc.length → compile table tokens = .error .ProgramTooLarge) ∧
      (bc.length ≤ 3600 →
        compile table tokens = .ok (bc ++ List.replicate (3600 - bc.length) 0) ∧
        (bc ++ List.replicate (3600 - bc.length) 0).length = 3600 ∧
        ∀ i, bc.length ≤ i → (bc ++ List.replicate (3600 - bc.length) 0).getD i 0 = 0)) ∧
    (∀ (table : List (String × Nat)) (tokens : List ParserToken) (img : List Nat),
      compile table tokens = .ok img → img.length = 3600) := by
  constructor
  · intro table tokens bc fip h
    constructor
    · intro hgt
      unfold compile
      rw [h]
      dsimp only
      rw [if_pos hgt]
    · intro hle
      refine ⟨?_, ?_, ?_⟩
      · unfold compile
        rw [h]
        dsimp only
        rw [if_neg (by omega)]
      · simp only [List.length_append, List.length_replicate]
        omega
      · intro i hi
        rw [List.getD_append_right _ _ _ _ hi]
        exact replicate_getD_zero _ _
  · intro table tokens img h
    unfold compile at h
    split at h
    · exact absurd h (by simp)
    · rename_i r hr
      split at h
      · exact absurd h (by simp)
      · rename_i hnot
        simp only [Except.ok.injEq] at h
        subst h
        simp only [List.length_append, List.length_replicate]
        omega

/-- Witness for C8: the fitting single-instruction stream from the spec's
end-to-end property produces exactly 3600 words. -/
theorem c8_capacity_witness :
    compile [] [ParserToken.Instruction ⟨.MOV, .Register 0, .ImmediateValue (.Number 5)⟩] =
      .ok ([0xE001, 0, 5] ++ List.replicate 3597 0) ∧
    ([0xE001, 0, 5] ++ List.replicate (3600 - [0xE001, 0, 5].length) (0 : Nat)).getD 100 0 = 0 := by
  have h := (c8_capacity.1 []
    [ParserToken.Instruction ⟨.MOV, .Register 0, .ImmediateValue (.Number 5)⟩]
    [0xE001, 0, 5] 3 (by rfl)).2 (by decide)
  exact ⟨h.1, h.2.2 100 (by decide)⟩

theorem resolve_err {table : List (String × Nat)} {l : String} {e : CompileError}
    (h : resolve table l = .error e) : e = .UnresolvedSymbol l := by
  unfold resolve at h
  split at h
  · exact absurd h (by simp)
  · simp only [Except.error.injEq] at h
    exact h.symm

theorem resolve_none {table : List (String × Nat)} {l : String}
    (h : List.lookup (toLowerStr l) table = none) :
    resolve table l = .error (.UnresolvedSymbol l) := by
  unfold resolve
  rw [h]

theorem indexedBase_err_name {table : List (String × Nat)} {base : Operand} {e : CompileError}
    (h : indexedBase table base = .error e) : ∃ l, e = .UnresolvedSymbol l := by
  match base with
  | .None => simp [indexedBase] at h
  | .Register r => simp [indexedBase] at h
  | .Direct v => simp [indexedBase] at h
  | .RegisterIndexedDirect b s o => simp [indexedBase] at h
  | .ImmediateValue v =>
    match v with
    | .Number n => simp [indexedBase] at h
    | .Label l =>
      unfold indexedBase at h
      dsimp only at h
      cases hres : resolve table l with
      | error e0 =>
        rw [hres] at h
        dsimp only at h
        simp only [Except.error.injEq] at h
        subst h
        exact ⟨l, resolve_err hres⟩
      | ok a =>
        rw [hres] at h
        simp at h

theorem indexedOffset_ok_of_good {base : Operand} {vo : Nat × Nat} {offset : Operand}
    (h1 : ∀ l, offset ≠ .ImmediateValue (.Label l))
    (h2 : ∀ r r2, ¬(base = .Register r ∧ offset = .Register r2)) :
    ∃ vo2, indexedOffset base vo offset = .ok vo2 := by
  match offset with
  | .None => exact ⟨vo, rfl⟩
  | .Direct v => exact ⟨vo, rfl⟩
  | .RegisterIndexedDirect b s o => exact ⟨vo, rfl⟩
  | .ImmediateValue v =>
    match v with
    | .Number k => exact ⟨(vo.1, k), rfl⟩
    | .Label l => exact absurd rfl (h1 l)
  | .Register r =>
    match base with
    | .None => exact ⟨vo, rfl⟩
    | .Direct v => exact ⟨vo, rfl⟩
    | .RegisterIndexedDirect b s o => exact ⟨vo, rfl⟩
    | .Register r2 => exact absurd ⟨rfl, rfl⟩ (h2 r2 r)
    | .ImmediateValue v =>
      match v with
      | .Number k => exact ⟨vo, rfl⟩
      | .Label l => exact ⟨(r <<< 12, vo.2), rfl⟩

theorem encodeOperand_err_name {table : List (String × Nat)} {positional : Bool} {ip : Nat}
    {op : Operand} {e : CompileError} (hg : goodShape op)
    (h : encodeOperand table positional ip op = .error e) : ∃ l, e = .UnresolvedSymbol l := by
  match op with
  | .None => simp [encodeOperand] at h
  | .Register r => simp [encodeOperand] at h
  | .Direct v =>
    match v with
    | .Number n => simp [encodeOperand] at h
    | .Label l =>
      unfold encodeOperand at h
      dsimp only at h
      cases hres : resolve table l with
      | error e0 =>
        rw [hres] at h
        dsimp only at h
        simp only [Except.error.injEq] at h
        subst h
        exact ⟨l, resolve_err hres⟩
      | ok a =>
        rw [hres] at h
        simp at h
  | .ImmediateValue v =>
    match v with
    | .Number n => simp [encodeOperand] at h
    | .Label l =>
      unfold encodeOperand at h
      dsimp only at h
      cases hres : resolve table l with
      | error e0 =>
        rw [hres] at h
        dsimp only at h
        simp only [Except.error.injEq] at h
        subst h
        exact ⟨l, resolve_err hres⟩
      | ok a =>
        rw [hres] at h
        simp at h
  | .RegisterIndexedDirect base sign offset =>
    obtain ⟨hoff, hbase_reg⟩ := hg base sign offset rfl
    unfold encodeOperand at h
    dsimp only at h
    cases hb : indexedBase table base with
    | error e0 =>
      rw [hb] at h
      dsimp only at h
      simp only [Except.error.injEq] at h
      subst h
      exact indexedBase_err_name hb
    | ok vo =>
      rw [hb] at h
      dsimp only at h
      obtain ⟨vo2, hvo2⟩ := indexedOffset_ok_of_good hoff hbase_reg
      rw [hvo2] at h
      simp at h

theorem compileData_err_name {table : List (String × Nat)} {vs : List Value} {e : CompileError}
    (h : compileData table vs = .error e) : ∃ l, e = .UnresolvedSymbol l := by
  induction vs with
  | nil => simp [compileData] at h
  | cons v rest ih =>
    unfold compileData at h
    split at h
    · rename_i e0 he0
      simp only [Except.error.injEq] at h
      subst h
      match v with
      | Value.Number n => simp [resolveValue] at he0
      | Value.Label l => exact ⟨l, resolve_err he0⟩
    · rename_i w hw
      split at h
      · rename_i e0 he0
        simp only [Except.error.injEq] at h
        subst h
        exact ih he0
      · exact absurd h (by simp)

theorem encodeInstruction_err_name {table : List (String × Nat)} {ip : Nat}
    {instruction : Instruction} {e : CompileError}
    (hg1 : goodShape instruction.operand1) (hg2 : goodShape instruction.operand2)
    (h : encodeInstruction table ip instruction = .error e) : ∃ l, e = .UnresolvedSymbol l := by
  unfold encodeInstruction at h
  split at h
  · rename_i e0 he0
    simp only [Except.error.injEq] at h
    subst h
    exact encodeOperand_err_name hg1 he0
  · split at h
    · rename_i e0 he0
      simp only [Except.error.injEq] at h
      subst h
      exact encodeOperand_err_name hg2 he0
    · exact absurd h (by simp)

theorem encodeOperand_err_unresolved {table : List (String × Nat)} {op : Operand}
    (h : opUnresolved table op) :
    ∀ positional ip, ∃ e, encodeOperand table positional ip op = .error e := by
  obtain ⟨l, hpos, hnone⟩ := h
  intro positional ip
  rcases hpos with h1 | h1 | ⟨sign, offset, h1⟩ <;> subst h1
  · exact ⟨.UnresolvedSymbol l, by
      unfold encodeOperand
      dsimp only
      rw [resolve_none hnone]⟩
  · exact ⟨.UnresolvedSymbol l, by
      unfold encodeOperand
      dsimp only
      rw [resolve_none hnone]⟩
  · have hb : indexedBase table (.ImmediateValue (.Label l)) =
        .error (.UnresolvedSymbol l) := by
      unfold indexedBase
      dsimp only
      rw [resolve_none hnone]
    exact ⟨.UnresolvedSymbol l, by
      unfold encodeOperand
      dsimp only
      rw [hb]⟩

theorem compileData_err_unresolved {table : List (String × Nat)} {vs : List Value}
    (h : dataUnresolved table vs) : ∃ e, compileData table vs = .error e := by
  obtain ⟨l, hmem, hnone⟩ := h
  revert hmem
  induction vs with
  | nil =>
    intro hmem
    simp at hmem
  | cons v rest ih =>
    intro hmem
    rcases List.mem_cons.mp hmem with hv | hv
    · subst hv
      have hres : resolveValue table (Value.Label l) = .error (.UnresolvedSymbol l) :=
        resolve_none hnone
      exact ⟨.UnresolvedSymbol l, by unfold compileData; rw [hres]⟩
    · cases hres : resolveValue table v with
      | error e0 => exact ⟨e0, by unfold compileData; rw [hres]⟩
      | ok w =>
        obtain ⟨e, he⟩ := ih hv
        exact ⟨e, by unfold compileData; rw [hres]; dsimp only; rw [he]⟩

theorem encodeInstruction_err_op1 {table : List (String × Nat)} {ip : Nat}
    {instruction : Instruction}
    (h : ∃ e, encodeOperand table instruction.instruction_type.is_positional ip
      instruction.operand1 = .error e) :
    ∃ e, encodeInstruction table ip instruction = .error e := by
  obtain ⟨e, he⟩ := h
  exact ⟨e, by unfold encodeInstruction; rw [he]⟩

theorem encodeInstruction_err_op2 {table : List (String × Nat)} {ip : Nat}
    {instruction : Instruction}
    (h : ∃ e, encodeOperand table instruction.instruction_type.is_positional ip
      instruction.operand2 = .error e) :
    ∃ e, encodeInstruction table ip instruction = .error e := by
  obtain ⟨e, he⟩ := h
  cases h1 : encodeOperand table instruction.instruction_type.is_positional ip
      instruction.operand1 with
  | error e1 => exact ⟨e1, by unfold encodeInstruction; rw [h1]⟩
  | ok o1 => exact ⟨e, by unfold encodeInstruction; rw [h1]; dsimp only; rw [he]⟩

theorem compileAux_err_of_tokenFails {table : List (String × Nat)} {tokens : List ParserToken}
    (h : ∃ t ∈ tokens, tokenFails table t) :
    ∀ ip, ∃ e, compileAux table tokens ip = .error e := by
  obtain ⟨t, hmem, hfail⟩ := h
  revert hmem
  induction tokens with
  | nil =>
    intro hmem
    simp at hmem
  | cons t0 rest ih =>
    intro hmem ip
    rcases List.mem_cons.mp hmem with heq | hmem2
    · subst heq
      rcases hfail with ⟨instruction, hti, hop⟩ | ⟨vs, htd, e, he⟩
      · subst hti
        rcases hop with hop1 | hop2
        · obtain ⟨e, he⟩ := encodeInstruction_err_op1 (hop1 _ (ip + (padWords ip).length))
          exact ⟨e, by unfold compileAux; dsimp only; rw [he]⟩
        · obtain ⟨e, he⟩ := encodeInstruction_err_op2 (hop2 _ (ip + (padWords ip).length))
          exact ⟨e, by unfold compileAux; dsimp only; rw [he]⟩
      · subst htd
        exact ⟨e, by unfold compileAux; dsimp only; rw [he]⟩
    · match t0 with
      | ParserToken.Instruction instruction =>
        cases h1 : encodeInstruction table (ip + (padWords ip).length) instruction with
        | error e => exact ⟨e, by unfold compileAux; dsimp only; rw [h1]⟩
        | ok ws =>
          obtain ⟨e, he⟩ := ih hmem2 (ip + (padWords ip).length + 3)
          exact ⟨e, by unfold compileAux; dsimp only; rw [h1]; dsimp only; rw [he]⟩
      | ParserToken.Data vs =>
        cases h1 : compileData table vs with
        | error e => exact ⟨e, by unfold compileAux; dsimp only; rw [h1]⟩
        | ok ws =>
          obtain ⟨e, he⟩ := ih hmem2 (ip + vs.length)
          exact ⟨e, by unfold compileAux; dsimp only; rw [h1]; dsimp only; rw [he]⟩
      | ParserToken.LabelDefinition name => exact ih hmem2 ip
      | ParserToken.Metadata fields => exact ih hmem2 ip
      | ParserToken.EOF => exact ih hmem2 ip
      | ParserToken.Invalid => exact ih hmem2 ip

theorem compileAux_err_name {table : List (String × Nat)} :
    ∀ (tokens : List ParserToken), noInvalidShapes tokens →
    ∀ (ip : Nat) (e : CompileError), compileAux table tokens ip = .error e →
    ∃ l, e = .UnresolvedSymbol l := by
  intro tokens
  induction tokens with
  | nil =>
    intro _ ip e h
    simp [compileAux] at h
  | cons t rest ih =>
    intro hg ip e h
    have hgrest : noInvalidShapes rest := fun instruction hmem =>
      hg instruction (List.mem_cons_of_mem _ hmem)
    match t with
    | ParserToken.Instruction instruction =>
      have hgi := hg instruction (List.mem_cons_self _ _)
      unfold compileAux at h
      dsimp only at h
      split at h
      · rename_i e0 he0
        simp only [Except.error.injEq] at h
        subst h
        exact encodeInstruction_err_name hgi.1 hgi.2 he0
      · rename_i ws hws
        split at h
        · rename_i e0 he0
          simp only [Except.error.injEq] at h
          subst h
          exact ih hgrest _ _ he0
        · exact absurd h (by simp)
    | ParserToken.Data vs =>
      unfold compileAux at h
      dsimp only at h
      split at h
      · rename_i e0 he0
        simp only [Except.error.injEq] at h
        subst h
        exact compileData_err_name he0
      · rename_i ws hws
        split at h
        · rename_i e0 he0
          simp only [Except.error.injEq] at h
          subst h
          exact ih hgrest _ _ he0
        · exact absurd h (by simp)
    | ParserToken.LabelDefinition name => exact ih hgrest ip e h
    | ParserToken.Metadata fields => exact ih hgrest ip e h
    | ParserToken.EOF => exact ih hgrest ip e h
    | ParserToken.Invalid => exact ih hgrest ip e h

/-- Counterexample for C6 as stated: the stream `MOV [r0 + x], (none)`
references the label `x`, which is absent from the (empty) symbol table,
yet compilation fails with `InvalidAddressing` ("Label cannot be used as
offset") and not with `UnresolvedSymbol`: the label sits in the offset
position, where the encoder panics before ever consulting the table. -/
theorem c6_counterexample :
    List.lookup (toLowerStr "x") ([] : List (String × Nat)) = none ∧
    compile []
        [ParserToken.Instruction ⟨.MOV,
          .RegisterIndexedDirect (.Register 0) .Plus (.ImmediateValue (.Label "x")),
          .None⟩] =
      .error (.InvalidAddressing "Label cannot be used as offset") ∧
    (CompileError.InvalidAddressing "Label cannot be used as offset" ≠
      CompileError.UnresolvedSymbol "x") := by
  refine ⟨rfl, by rfl, by simp⟩

/-- C6 (amended): a stream that references, in a position where resolution
is attempted (a `Direct` or `Immediate` operand value, an `IndexedDirect`
base label, or a data value), a label absent from the case-folded symbol
table fails fatally — no memory image is produced — and if no operand of
the stream has an invalid addressing shape the error is `UnresolvedSymbol`
(a zero-filled or defaulted word is never emitted for the operand). -/
theorem c6_unresolved_fatal :
    ∀ (table : List (String × Nat)) (tokens : List ParserToken),
      hasUnresolvedRef table tokens →
      (∃ e, compile table tokens = .error e) ∧
      (noInvalidShapes tokens →
        ∃ l, compile table tokens = .error (.UnresolvedSymbol l)) := by
  intro table tokens h
  have hfail : ∃ t ∈ tokens, tokenFails table t := by
    obtain ⟨t, hmem, hcase⟩ := h
    refine ⟨t, hmem, ?_⟩
    rcases hcase with ⟨instruction, hti, hop⟩ | ⟨vs, htd, hdata⟩
    · exact Or.inl ⟨instruction, hti,
        hop.imp (fun h1 => encodeOperand_err_unresolved h1)
          (fun h1 => encodeOperand_err_unresolved h1)⟩
    · exact Or.inr ⟨vs, htd, compileData_err_unresolved hdata⟩
  obtain ⟨e, he⟩ := compileAux_err_of_tokenFails hfail 0
  have hc : compile table tokens = .error e := by
    unfold compile
    rw [he]
  refine ⟨⟨e, hc⟩, fun hg => ?_⟩
  obtain ⟨l, hl⟩ := compileAux_err_name tokens hg 0 e he
  exact ⟨l, by rw [hc, hl]⟩

/-- Witness for C6: a data record referencing the undefined label `x`
makes compilation fail, and the error is an `UnresolvedSymbol`. -/
theorem c6_unresolved_fatal_witness :
    (∃ e, compile [] [ParserToken.Data [.Label "x"]] = .error e) ∧
    (∃ l, compile [] [ParserToken.Data [.Label "x"]] =
      .error (.UnresolvedSymbol l)) := by
  have h := c6_unresolved_fatal [] [ParserToken.Data [.Label "x"]]
    ⟨ParserToken.Data [.Label "x"], by simp,
      Or.inr ⟨[.Label "x"], rfl, "x", by simp, rfl⟩⟩
  refine ⟨h.1, h.2 ?_⟩
  intro instruction hmem
  simp at hmem

theorem encodeOperand_err_invalid {table : List (String × Nat)} {op : Operand}
    (h : invalidShape op) :
    ∀ positional ip, ∃ e, encodeOperand table positional ip op = .error e := by
  intro positional ip
  rcases h with ⟨base, sign, l, h1⟩ | ⟨r, sign, r2, h1⟩ <;> subst h1
  · cases hb : indexedBase table base with
    | error e0 => exact ⟨e0, by unfold encodeOperand; dsimp only; rw [hb]⟩
    | ok vo =>
      exact ⟨.InvalidAddressing "Label cannot be used as offset", by
        unfold encodeOperand
        dsimp only
        rw [hb]
        rfl⟩
  · exact ⟨.InvalidAddressing "Register cannot be used as offset", by rfl⟩

/-- Counterexample for C7 as stated: the operand
`IndexedDirect(Immediate(Label "x"), Plus, Immediate(Label "y"))` has a
label in its offset position, yet (with `x` undefined) compilation fails
with `UnresolvedSymbol "x"` — the base is resolved before the offset check
— not with either `InvalidAddressing` message. -/
theorem c7_counterexample :
    compile []
        [ParserToken.Instruction ⟨.MOV,
          .RegisterIndexedDirect (.ImmediateValue (.Label "x")) .Plus
            (.ImmediateValue (.Label "y")),
          .None⟩] =
      .error (.UnresolvedSymbol "x") ∧
    (CompileError.UnresolvedSymbol "x" ≠
      CompileError.InvalidAddressing "Label cannot be used as offset") ∧
    (CompileError.UnresolvedSymbol "x" ≠
      CompileError.InvalidAddressing "Register cannot be used as offset") := by
  refine ⟨by rfl, by simp, by simp⟩

/-- C7 (amended): an `IndexedDirect` operand with a label in its offset
position always fails to encode, and the error is the addressing panic
`InvalidAddressing` ("Label cannot be used as offset") whenever the base
itself encodes (an undefined base label fails first, with
`UnresolvedSymbol`); a register base with a register offset always fails
with `InvalidAddressing` ("Register cannot be used as offset"); and any
stream containing an instruction with such an operand fails fatally, so
no words are emitted for it or any later record. -/
theorem c7_invalid_offset :
    (∀ (table : List (String × Nat)) (positional : Bool) (ip : Nat)
      (base : Operand) (sign : PlusMinus) (l : String),
      ∃ e, encodeOperand table positional ip
        (.RegisterIndexedDirect base sign (.ImmediateValue (.Label l))) = .error e) ∧
    (∀ (table : List (String × Nat)) (positional : Bool) (ip : Nat)
      (base : Operand) (sign : PlusMinus) (l : String) (vo : Nat × Nat),
      indexedBase table base = .ok vo →
      encodeOperand table positional ip
        (.RegisterIndexedDirect base sign (.ImmediateValue (.Label l))) =
        .error (.InvalidAddressing "Label cannot be used as offset")) ∧
    (∀ (table : List (String × Nat)) (positional : Bool) (ip : Nat)
      (r : Nat) (sign : PlusMinus) (r2 : Nat),
      encodeOperand table positional ip
        (.RegisterIndexedDirect (.Register r) sign (.Register r2)) =
        .error (.InvalidAddressing "Register cannot be used as offset")) ∧
    (∀ (table : List (String × Nat)) (tokens : List ParserToken)
      (instruction : Instruction),
      ParserToken.Instruction instruction ∈ tokens →
      invalidShape instruction.operand1 ∨ invalidShape instruction.operand2 →
      ∃ e, compile table tokens = .error e) := by
  refine ⟨?_, ?_, ?_, ?_⟩
  · intro table positional ip base sign l
    exact encodeOperand_err_invalid (Or.inl ⟨base, sign, l, rfl⟩) positional ip
  · intro table positional ip base sign l vo hb
    unfold encodeOperand
    dsimp only
    rw [hb]
    rfl
  · intro table positional ip r sign r2
    rfl
  · intro table tokens instruction hmem hshape
    have hfail : ∃ t ∈ tokens, tokenFails table t := by
      refine ⟨ParserToken.Instruction instruction, hmem, Or.inl ⟨instruction, rfl, ?_⟩⟩
      exact hshape.imp (fun h1 => encodeOperand_err_invalid h1)
        (fun h1 => encodeOperand_err_invalid h1)
    obtain ⟨e, he⟩ := compileAux_err_of_tokenFails hfail 0
    exact ⟨e, by unfold compile; rw [he]⟩

/-- Witness for C7: `[r1 + y]` (label offset, register base) and
`[r1 + r2]` both fail with their `InvalidAddressing` messages, and a
stream containing the latter compiles to an error. -/
theorem c7_invalid_offset_witness :
    encodeOperand [] false 0
        (.RegisterIndexedDirect (.Register 1) .Plus (.ImmediateValue (.Label "y"))) =
      .error (.InvalidAddressing "Label cannot be used as offset") ∧
    encodeOperand [] false 0
        (.RegisterIndexedDirect (.Register 1) .Plus (.Register 2)) =
      .error (.InvalidAddressing "Register cannot be used as offset") ∧
    (∃ e, compile []
        [ParserToken.Instruction ⟨.MOV,
          .RegisterIndexedDirect (.Register 1) .Plus (.Register 2), .None⟩] =
      .error e) := by
  refine ⟨?_, ?_, ?_⟩
  · exact c7_invalid_offset.2.1 [] false 0 (.Register 1) .Plus "y" (1 <<< 12, 0) (by rfl)
  · exact c7_invalid_offset.2.2.1 [] false 0 1 .Plus 2
  · exact c7_invalid_offset.2.2.2 []
      [ParserToken.Instruction ⟨.MOV,
        .RegisterIndexedDirect (.Register 1) .Plus (.Register 2), .None⟩]
      ⟨.MOV, .RegisterIndexedDirect (.Register 1) .Plus (.Register 2), .None⟩
      (by simp) (Or.inl (Or.inr ⟨1, .Plus, 2, rfl⟩))
